import Mathlib

/-!
# Verification of the wildcard event emitter

Shallow embedding of `src/data/samples/event_emitter.js`: the
`EventEmitter` class (`on`, `once`, `off`, `emit`, `_matches`,
`listenerCount`) and the `debounce` / `throttle` combinators, together
with theorems settling the specification claims about them.

Listener callables are embedded as a small inductive language (`Beh`)
of bodies a listener can execute: return normally, raise, or
re-entrantly call `emit` and continue.  Stored listeners (`Fn`) are
either plain callables, `once`-wrappers carrying their captured pattern
and the `_original` back-reference, or non-callable values.  The
diagnostic sink (`console.warn` / `console.error`) and the start of
each listener invocation are recorded in an event trace (`TraceEv`).
-/

namespace EmitterSpec

/-- JavaScript `String.prototype.split('.')` on the character list. -/
def splitDot : List Char → List String
  | [] => [""]
  | c :: cs =>
    let r := splitDot cs
    if c = '.' then "" :: r
    else
      match r with
      | [] => [String.mk [c]]
      | h :: t => String.mk (c :: h.data) :: t

/-- `s.split('.')` as the source uses it. -/
def jsSplit (s : String) : List String := splitDot s.data

theorem splitDot_ne_nil (cs : List Char) : splitDot cs ≠ [] := by
  cases cs with
  | nil => simp [splitDot]
  | cons c cs =>
    simp only [splitDot]
    cases h : splitDot cs with
    | nil => by_cases hc : c = '.' <;> simp [hc]
    | cons a t => by_cases hc : c = '.' <;> simp [hc]

theorem jsSplit_ne_nil (s : String) : jsSplit s ≠ [] := splitDot_ne_nil s.data

/-- The body of the `for` loop of `_matches`, walking the pattern
segments against the event segments in lockstep.  `some b` is an early
`return b`; `none` means the loop ran to completion.  An exhausted
event list plays the role of `eventParts[i]` being `undefined`. -/
def loopStep : List String → List String → Option Bool
  | [], _ => none
  | p :: ps, es =>
    if p = "**" then some true
    else if p = "*" then loopStep ps es.tail
    else
      match es with
      | [] => some false
      | e :: es2 => if p = e then loopStep ps es2 else some false

/-- `EventEmitter.prototype._matches(pattern, event)` from the source. -/
def _matches (pattern event : String) : Bool :=
  if pattern = event ∨ pattern = "*" then true
  else
    match loopStep (jsSplit pattern) (jsSplit event) with
    | some b => b
    | none => (jsSplit pattern).length == (jsSplit event).length

/-- Modelled from the spec, section 4.1: the index-driven segment walk.
Walks pattern segments by index `i`; `**` returns true immediately,
`*` skips the position, a literal requires the event segment at the
same index to exist and be equal; falling off the end compares the two
segment counts. -/
def specWalk (pps eps : List String) (i : Nat) : Bool :=
  if hp : i < pps.length then
    let p := pps.get ⟨i, hp⟩
    if p = "**" then true
    else if p = "*" then specWalk pps eps (i + 1)
    else
      match eps.get? i with
      | some e => if p = e then specWalk pps eps (i + 1) else false
      | none => false
  else pps.length == eps.length
termination_by pps.length - i

/-- Modelled from the spec, section 4.1: the whole matcher contract. -/
def specMatches (pattern event : String) : Bool :=
  if pattern = event ∨ pattern = "*" then true
  else specWalk (jsSplit pattern) (jsSplit event) 0

/-- Body of a listener callable: return normally, raise, or call
`emit(e)` re-entrantly and continue with the rest of the body. -/
inductive Beh where
  | ret : Beh
  | throwB : Beh
  | emitThen : String → Beh → Beh
deriving DecidableEq, Repr

/-- A value stored in a listener list: a plain callable (tagged with an
identity), a `once`-wrapper (carrying the pattern it captured and the
`_original` callable it wraps), or a non-callable value. -/
inductive Fn where
  | base : Nat → Beh → Fn
  | wrap : String → Fn → Fn
  | notFn : Nat → Fn
deriving DecidableEq, Repr

/-- Observable events: `console.warn` from `on` (pattern, length before
push, maxListeners), `console.error` from `emit`'s catch (event name),
and the start of a listener invocation with its arguments. -/
inductive TraceEv where
  | warn : String → Nat → Nat → TraceEv
  | errorReport : String → TraceEv
  | invoke : Fn → List Nat → TraceEv
deriving DecidableEq, Repr

/-- `this.listeners`: a JavaScript `Map` in insertion order. -/
abbrev Registry := List (String × List Fn)

/-- The mutable state of one `EventEmitter` instance. -/
structure EmitterState where
  listeners : Registry
  maxListeners : Nat
deriving DecidableEq, Repr

/-- `new EventEmitter()`. -/
def newEmitter : EmitterState := ⟨[], 10⟩

/-- `Map.prototype.get` (first occurrence of the key). -/
def mapGet (m : Registry) (k : String) : Option (List Fn) :=
  match m with
  | [] => none
  | kv :: rest => if kv.1 = k then some kv.2 else mapGet rest k

/-- `Map.prototype.set`: update the existing entry in place, else
append a new entry at the end (insertion order). -/
def mapSet (m : Registry) (k : String) (v : List Fn) : Registry :=
  match m with
  | [] => [(k, v)]
  | kv :: rest => if kv.1 = k then (k, v) :: rest else kv :: mapSet rest k v

/-- `Map.prototype.delete`. -/
def mapDelete (m : Registry) (k : String) : Registry :=
  match m with
  | [] => []
  | kv :: rest => if kv.1 = k then rest else kv :: mapDelete rest k

/-- The predicate of `off`'s `findIndex`:
`fn === callback || fn._original === callback`. -/
def offPred (cb f : Fn) : Bool :=
  f == cb ||
    (match f with
     | Fn.wrap _ orig => orig == cb
     | _ => false)

/-- `findIndex` + `splice(idx, 1)`: remove the first element satisfying
the predicate; leave the list unchanged when there is none. -/
def spliceFirst (p : Fn → Bool) : List Fn → List Fn
  | [] => []
  | x :: xs => if p x then xs else x :: spliceFirst p xs

/-- `EventEmitter.prototype.off(event, callback)`.  `none` for the
callback is the omitted-argument (falsy) case. -/
def jsOff (st : EmitterState) (event : String) (callback : Option Fn) : EmitterState :=
  match callback with
  | none => { st with listeners := mapDelete st.listeners event }
  | some cb =>
    match mapGet st.listeners event with
    | none => st
    | some l =>
      let l2 := spliceFirst (offPred cb) l
      if l2.length = 0 then { st with listeners := mapDelete st.listeners event }
      else { st with listeners := mapSet st.listeners event l2 }

/-- `EventEmitter.prototype.on(event, callback)`: the new state plus
the diagnostic messages produced.  The returned unsubscribe closure is
`() => this.off(event, callback)`, i.e. `fun st => jsOff st event (some callback)`. -/
def jsOn (st : EmitterState) (event : String) (callback : Fn) :
    EmitterState × List TraceEv :=
  let m0 := if (mapGet st.listeners event).isSome then st.listeners
            else mapSet st.listeners event []
  let l := (mapGet m0 event).getD []
  let warns := if l.length ≥ st.maxListeners
               then [TraceEv.warn event l.length st.maxListeners] else []
  (⟨mapSet m0 event (l ++ [callback]), st.maxListeners⟩, warns)

/-- `EventEmitter.prototype.once(event, callback)`: registers the
wrapper that first removes itself (`off(event, wrapper)`) and only then
invokes the original callback; `wrapper._original = callback`. -/
def jsOnce (st : EmitterState) (event : String) (callback : Fn) :
    EmitterState × List TraceEv :=
  jsOn st event (Fn.wrap event callback)

/-- JavaScript truthiness of the optional `event` argument of
`listenerCount` (`undefined` and `""` are falsy). -/
def truthyStr : Option String → Bool
  | none => false
  | some s => !(s == "")

/-- `EventEmitter.prototype.listenerCount(event)`. -/
def listenerCount (st : EmitterState) (event : Option String) : Nat :=
  if truthyStr event then ((mapGet st.listeners (event.getD "")).getD []).length
  else st.listeners.foldl (fun acc kv => acc + kv.2.length) 0

/-- The type of `emit` seen from inside a listener body: state, event
name and arguments in, then final state, trace of observable events,
and the boolean `emit` returns. -/
abbrev EmitFn := EmitterState → String → List Nat → EmitterState × List TraceEv × Bool

/-- Run a listener body.  `emitO` is the `emit` available to the body
at the current nesting depth; `none` means the depth budget is
exhausted, in which case the nested `emit` call aborts the body with a
raise (the platform's stack-overflow error). -/
def runBehW (emitO : Option EmitFn) : EmitterState → Beh → EmitterState × List TraceEv × Bool
  | st, Beh.ret => (st, [], false)
  | st, Beh.throwB => (st, [], true)
  | st, Beh.emitThen e k =>
    match emitO with
    | none => (st, [], true)
    | some em =>
      let r := em st e []
      let r2 := runBehW emitO r.1 k
      (r2.1, r.2.1 ++ r2.2.1, r2.2.2)

/-- Invoke one stored listener with `args`: records the invocation
start, a `once`-wrapper first performs `off(event, wrapper)` and then
invokes `_original`, and calling a non-callable raises.  The final
component is whether the invocation raised. -/
def applyFnW (emitO : Option EmitFn) : EmitterState → Fn → List Nat → EmitterState × List TraceEv × Bool
  | st, Fn.base n b, args =>
    let r := runBehW emitO st b
    (r.1, TraceEv.invoke (Fn.base n b) args :: r.2.1, r.2.2)
  | st, Fn.wrap p c, args =>
    let st1 := jsOff st p (some (Fn.wrap p c))
    let r := applyFnW emitO st1 c args
    (r.1, TraceEv.invoke (Fn.wrap p c) args :: r.2.1, r.2.2)
  | st, Fn.notFn _, _ => (st, [], true)

/-- The inner loop of `emit` over the snapshot `[...listeners]`: each
listener is tried, a raise is caught and reported
(`console.error(event, err)`), and `called` is set only after an
invocation returns normally. -/
def runSnapshotW (emitO : Option EmitFn) (event : String) (args : List Nat) :
    EmitterState → List Fn → EmitterState × List TraceEv × Bool
  | st, [] => (st, [], false)
  | st, f :: fs =>
    let r := applyFnW emitO st f args
    let rest := runSnapshotW emitO event args r.1 fs
    (rest.1, (r.2.1 ++ if r.2.2 then [TraceEv.errorReport event] else []) ++ rest.2.1,
     (!r.2.2) || rest.2.2)

/-- The outer loop of `emit` over the registry entries.  The keys are
fixed when `emit` starts but each entry's list is read at visit time,
and a key deleted in the meantime is skipped — the behaviour of
iterating a live JavaScript `Map` (listeners never add keys). -/
def emitLoopW (emitO : Option EmitFn) (event : String) (args : List Nat) :
    EmitterState → List String → EmitterState × List TraceEv × Bool
  | st, [] => (st, [], false)
  | st, k :: ks =>
    match mapGet st.listeners k with
    | none => emitLoopW emitO event args st ks
    | some l =>
      if _matches k event then
        let r := runSnapshotW emitO event args st l
        let rest := emitLoopW emitO event args r.1 ks
        (rest.1, r.2.1 ++ rest.2.1, r.2.2 || rest.2.2)
      else emitLoopW emitO event args st ks

/-- `EventEmitter.prototype.emit(event, ...args)`, with `fuel` bounding
the depth of re-entrant `emit` nesting a listener may perform. -/
def emitFuel : Nat → EmitterState → String → List Nat → EmitterState × List TraceEv × Bool
  | 0, st, event, args =>
    emitLoopW none event args st (st.listeners.map Prod.fst)
  | fuel + 1, st, event, args =>
    emitLoopW (some (fun st2 e2 a2 => emitFuel fuel st2 e2 a2)) event args st
      (st.listeners.map Prod.fst)

/-! ## Rate limiters -/

/-- Private state of one `throttle` wrapper: `lastCall` and the pending
timer, modelled as the absolute time it will fire with the arguments it
captured (`setTimeout(cb, remaining)` issued at time `now` fires at
`now + remaining`). -/
structure ThrottleState where
  lastCall : Nat
  timer : Option (Nat × List Nat)
deriving DecidableEq, Repr

/-- State right after `throttle(fn, limit)` constructs the wrapper:
`lastCall = 0`, no pending timer.  The construction itself performs no
validation of `limit`. -/
def throttleInit : ThrottleState := ⟨0, none⟩

/-- One invocation of the throttled wrapper at clock value `now`
(`Date.now()`).  Returns the new wrapper state and `some args` when
`fn` is applied synchronously (the leading edge). -/
def throttleCall (limit : Nat) (st : ThrottleState) (now : Nat) (args : List Nat) :
    ThrottleState × Option (List Nat) :=
  let remaining : Int := (limit : Int) - ((now : Int) - (st.lastCall : Int))
  if remaining ≤ 0 then
    (⟨now, none⟩, some args)
  else
    (⟨st.lastCall, some ((((now : Int) + remaining)).toNat, args)⟩, none)

/-- The pending timer of a throttled wrapper fires: `lastCall` is set
to the fire time and `fn` is applied to the captured arguments.  With
no pending timer nothing happens. -/
def throttleFire (st : ThrottleState) : ThrottleState × Option (List Nat) :=
  match st.timer with
  | none => (st, none)
  | some (t, a) => (⟨t, none⟩, some a)

/-- Private state of one `debounce` wrapper: the pending timer. -/
structure DebounceState where
  timer : Option (Nat × List Nat)
deriving DecidableEq, Repr

/-- State right after `debounce(fn, delay)` constructs the wrapper; no
validation of `delay` is performed. -/
def debounceInit : DebounceState := ⟨none⟩

/-- One invocation of the debounced wrapper at clock value `now`:
`clearTimeout(timer)` then reschedule with the latest arguments. -/
def debounceCall (delay : Nat) (_st : DebounceState) (now : Nat) (args : List Nat) :
    DebounceState :=
  ⟨some (now + delay, args)⟩

/-! ## Well-formed registries

The general dispatch theorems are stated over registries whose keys are
distinct (the invariant of a JavaScript `Map`) and whose listeners are
callables in the modelled language that do not re-enter `emit`: plain
callables, or `once`-wrappers stored under their own captured pattern,
as `once` creates them. -/

/-- A listener body that neither re-enters `emit` nor is a wrapper. -/
def plainB : Beh → Bool
  | Beh.ret => true
  | Beh.throwB => true
  | Beh.emitThen _ _ => false

/-- A well-formed stored listener for the key `p`. -/
def wfFn (p : String) : Fn → Bool
  | Fn.base _ b => plainB b
  | Fn.wrap q c =>
    (p == q) &&
      (match c with
       | Fn.base _ b => plainB b
       | _ => false)
  | Fn.notFn _ => false

/-- Well-formed emitter state. -/
def wfS (st : EmitterState) : Prop :=
  (st.listeners.map Prod.fst).Nodup ∧
    ∀ kv ∈ st.listeners, ∀ f ∈ kv.2, wfFn kv.1 f = true

instance : DecidablePred wfS := fun st => by
  unfold wfS; infer_instance

/-- Whether invoking the stored listener raises (a wrapper raises iff
its original does). -/
def fnThrows : Fn → Bool
  | Fn.base _ b => match b with | Beh.throwB => true | _ => false
  | Fn.wrap _ c => fnThrows c
  | Fn.notFn _ => true

/-- The invocation-start events produced by invoking one stored
listener (a wrapper invocation also invokes its original). -/
def invokesOf (f : Fn) (args : List Nat) : List TraceEv :=
  match f with
  | Fn.wrap _ c => TraceEv.invoke f args :: invokesOf c args
  | Fn.base _ _ => [TraceEv.invoke f args]
  | Fn.notFn _ => []

/-- Everything one top-level listener contributes to the trace of a
dispatch of `event`: its invocation starts, then the failure report if
it raised. -/
def expectedOne (event : String) (args : List Nat) (f : Fn) : List TraceEv :=
  invokesOf f args ++ (if fnThrows f then [TraceEv.errorReport event] else [])

/-! ## Map and list lemmas -/

theorem mapGet_set_self (m : Registry) (k : String) (v : List Fn) :
    mapGet (mapSet m k v) k = some v := by
  induction m with
  | nil => simp [mapSet, mapGet]
  | cons kv rest ih =>
    by_cases h : kv.1 = k <;> simp [mapSet, mapGet, h, ih]

theorem mapGet_set_other (m : Registry) (k j : String) (v : List Fn) (h : j ≠ k) :
    mapGet (mapSet m k v) j = mapGet m j := by
  induction m with
  | nil => simp [mapSet, mapGet, Ne.symm h]
  | cons kv rest ih =>
    by_cases hk : kv.1 = k
    · simp [mapSet, mapGet, hk, Ne.symm h]
    · simp [mapSet, mapGet, hk, ih]

theorem mapGet_delete_other (m : Registry) (k j : String) (h : j ≠ k) :
    mapGet (mapDelete m k) j = mapGet m j := by
  induction m with
  | nil => simp [mapDelete]
  | cons kv rest ih =>
    by_cases hk : kv.1 = k
    · simp [mapDelete, mapGet, hk, Ne.symm h]
    · by_cases hj : kv.1 = j <;> simp [mapDelete, mapGet, hk, hj, ih, h]

theorem mapGet_delete_self (m : Registry) (k : String)
    (h : (m.map Prod.fst).Nodup) : mapGet (mapDelete m k) k = none := by
  induction m with
  | nil => simp [mapDelete, mapGet]
  | cons kv rest ih =>
    simp only [List.map_cons, List.nodup_cons] at h
    by_cases hk : kv.1 = k
    · subst hk
      cases hg : mapGet rest kv.1 with
      | none => simpa [mapDelete] using hg
      | some l =>
        exfalso
        have : kv.1 ∈ rest.map Prod.fst := by
          clear ih h
          induction rest with
          | nil => simp [mapGet] at hg
          | cons kv2 rest2 ih2 =>
            simp only [mapGet] at hg
            by_cases h2 : kv2.1 = kv.1
            · simp [h2]
            · simp [h2] at hg
              simp [ih2 hg]
        exact h.1 this
    · simp [mapDelete, mapGet, hk, ih h.2]

theorem mapSet_set (m : Registry) (k : String) (v w : List Fn) :
    mapSet (mapSet m k v) k w = mapSet m k w := by
  induction m with
  | nil => simp [mapSet]
  | cons kv rest ih =>
    by_cases h : kv.1 = k <;> simp [mapSet, h, ih]

theorem mapGet_mem_of_nodup (m : Registry) (kv : String × List Fn)
    (h : (m.map Prod.fst).Nodup) (hm : kv ∈ m) : mapGet m kv.1 = some kv.2 := by
  induction m with
  | nil => simp at hm
  | cons kv2 rest ih =>
    simp only [List.map_cons, List.nodup_cons] at h
    rcases List.mem_cons.mp hm with he | hr
    · subst he; simp [mapGet]
    · have hne : ¬ kv2.1 = kv.1 := by
        intro hh
        exact h.1 (hh ▸ List.mem_map_of_mem Prod.fst hr)
      simp [mapGet, hne, ih h.2 hr]

theorem countP_spliceFirst_eq_zero (p : Fn → Bool) (l : List Fn)
    (h : l.countP p ≤ 1) : (spliceFirst p l).countP p = 0 := by
  induction l with
  | nil => simp [spliceFirst]
  | cons x xs ih =>
    rw [List.countP_cons] at h
    cases hx : p x with
    | true =>
      rw [hx] at h; simp at h
      simpa [spliceFirst, hx] using h
    | false =>
      rw [hx] at h; simp at h
      simp [spliceFirst, hx, List.countP_cons, ih h]

theorem spliceFirst_of_countP_zero (p : Fn → Bool) (l : List Fn)
    (h : l.countP p = 0) : spliceFirst p l = l := by
  induction l with
  | nil => simp [spliceFirst]
  | cons x xs ih =>
    rw [List.countP_cons] at h
    have hx : p x = false := by
      cases hpx : p x
      · rfl
      · rw [hpx] at h; simp at h
    rw [hx] at h
    simp only [Bool.false_eq_true, if_false] at h
    simp [spliceFirst, hx, ih h]

theorem jsOff_get_other (st : EmitterState) (p j : String) (c : Option Fn) (h : j ≠ p) :
    mapGet (jsOff st p c).listeners j = mapGet st.listeners j := by
  cases c with
  | none => simp [jsOff, mapGet_delete_other _ _ _ h]
  | some cb =>
    simp only [jsOff]
    cases hg : mapGet st.listeners p with
    | none => rfl
    | some l =>
      by_cases hl : (spliceFirst (offPred cb) l).length = 0 <;>
        simp [hl, mapGet_delete_other _ _ _ h, mapGet_set_other _ _ _ _ h]

theorem jsOn_get_self (st : EmitterState) (p : String) (f : Fn) :
    mapGet ((jsOn st p f).1).listeners p
      = some (((mapGet st.listeners p).getD []) ++ [f]) := by
  simp only [jsOn]
  cases hg : mapGet st.listeners p with
  | none => simp [hg, mapGet_set_self]
  | some l => simp [hg, mapGet_set_self]

theorem jsOn_warns (st : EmitterState) (p : String) (f : Fn) :
    (jsOn st p f).2
      = (if ((mapGet st.listeners p).getD []).length ≥ st.maxListeners
         then [TraceEv.warn p (((mapGet st.listeners p).getD []).length) st.maxListeners]
         else []) := by
  simp only [jsOn]
  cases hg : mapGet st.listeners p with
  | none => simp [hg, mapGet_set_self]
  | some l => simp [hg]

theorem foldl_len (l : Registry) (n : Nat) :
    l.foldl (fun acc kv => acc + kv.2.length) n = n + (l.map (fun kv => kv.2.length)).sum := by
  induction l generalizing n with
  | nil => simp
  | cons kv rest ih =>
    rw [List.foldl_cons, ih, List.map_cons, List.sum_cons]
    omega

/-! ## Dispatch lemmas for well-formed registries -/

theorem applyFnW_wf (emitO : Option EmitFn) (st : EmitterState) (p : String) (f : Fn)
    (args : List Nat) (hw : wfFn p f = true) :
    (applyFnW emitO st f args).2.1 = invokesOf f args ∧
    (applyFnW emitO st f args).2.2 = fnThrows f ∧
    ∀ j, j ≠ p → mapGet (applyFnW emitO st f args).1.listeners j = mapGet st.listeners j := by
  cases f with
  | base n b =>
    cases b with
    | ret => simp [applyFnW, runBehW, invokesOf, fnThrows]
    | throwB => simp [applyFnW, runBehW, invokesOf, fnThrows]
    | emitThen e k => simp [wfFn, plainB] at hw
  | wrap q c =>
    simp only [wfFn, Bool.and_eq_true, beq_iff_eq] at hw
    obtain ⟨hpq, hc⟩ := hw
    subst hpq
    cases c with
    | base m b =>
      cases b with
      | ret =>
        refine ⟨by simp [applyFnW, runBehW, invokesOf], by simp [applyFnW, runBehW, fnThrows], ?_⟩
        intro j hj
        simp only [applyFnW, runBehW]
        exact jsOff_get_other st p j _ hj
      | throwB =>
        refine ⟨by simp [applyFnW, runBehW, invokesOf], by simp [applyFnW, runBehW, fnThrows], ?_⟩
        intro j hj
        simp only [applyFnW, runBehW]
        exact jsOff_get_other st p j _ hj
      | emitThen e k => simp [plainB] at hc
    | wrap q2 c2 => simp at hc
    | notFn m => simp at hc
  | notFn n => simp [wfFn] at hw

theorem runSnapshotW_wf (emitO : Option EmitFn) (E : String) (args : List Nat)
    (p : String) :
    ∀ (l : List Fn) (st : EmitterState), (∀ f ∈ l, wfFn p f = true) →
    (runSnapshotW emitO E args st l).2.1 = (l.map (expectedOne E args)).flatten ∧
    (runSnapshotW emitO E args st l).2.2 = l.any (fun f => !fnThrows f) ∧
    ∀ j, j ≠ p →
      mapGet (runSnapshotW emitO E args st l).1.listeners j = mapGet st.listeners j := by
  intro l
  induction l with
  | nil => intro st _; simp [runSnapshotW]
  | cons f fs ih =>
    intro st hl
    have hf := applyFnW_wf emitO st p f args (hl f (by simp))
    have hfs := ih (applyFnW emitO st f args).1 (fun g hg => hl g (by simp [hg]))
    simp only [runSnapshotW]
    refine ⟨?_, ?_, ?_⟩
    · simp [hf.1, hf.2.1, hfs.1, expectedOne]
    · simp [hf.2.1, hfs.2.1]
    · intro j hj
      rw [hfs.2.2 j hj, hf.2.2 j hj]

theorem emitLoopW_wf (emitO : Option EmitFn) (E : String) (args : List Nat) :
    ∀ (rest : Registry) (st : EmitterState),
    (rest.map Prod.fst).Nodup →
    (∀ kv ∈ rest, mapGet st.listeners kv.1 = some kv.2 ∧ ∀ f ∈ kv.2, wfFn kv.1 f = true) →
    (emitLoopW emitO E args st (rest.map Prod.fst)).2.1 =
      ((rest.filter (fun kv => _matches kv.1 E)).map
        (fun kv => (kv.2.map (expectedOne E args)).flatten)).flatten ∧
    (emitLoopW emitO E args st (rest.map Prod.fst)).2.2 =
      rest.any (fun kv => _matches kv.1 E && kv.2.any (fun f => !fnThrows f)) := by
  intro rest
  induction rest with
  | nil => intro st _ _; simp [emitLoopW]
  | cons kv tail ih =>
    intro st hnd hinv
    simp only [List.map_cons, List.nodup_cons] at hnd
    have hget : mapGet st.listeners kv.1 = some kv.2 := (hinv kv (by simp)).1
    have hwf : ∀ f ∈ kv.2, wfFn kv.1 f = true := (hinv kv (by simp)).2
    simp only [List.map_cons, emitLoopW, hget]
    by_cases hm : _matches kv.1 E
    · have hsnap := runSnapshotW_wf emitO E args kv.1 kv.2 st hwf
      have htail := ih (runSnapshotW emitO E args st kv.2).1 hnd.2 ?_
      · simp only [hm, if_pos]
        constructor
        · rw [List.filter_cons_of_pos (by simp [hm])]
          simp [hsnap.1, htail.1]
        · rw [List.any_cons, htail.2, hsnap.2.1, hm]
          simp
      · intro kv2 hkv2
        have hne : kv2.1 ≠ kv.1 := by
          intro hh
          exact hnd.1 (hh ▸ List.mem_map_of_mem Prod.fst hkv2)
        refine ⟨?_, (hinv kv2 (by simp [hkv2])).2⟩
        rw [hsnap.2.2 kv2.1 hne]
        exact (hinv kv2 (by simp [hkv2])).1
    · have htail := ih st hnd.2 (fun kv2 hkv2 => hinv kv2 (by simp [hkv2]))
      have hm2 : _matches kv.1 E = false := by simpa using hm
      constructor
      · simp only [hm2, Bool.false_eq_true, if_false]
        rw [List.filter_cons_of_neg (by simp [hm2])]
        exact htail.1
      · simp only [hm2, Bool.false_eq_true, if_false]
        rw [List.any_cons, htail.2, hm2]
        simp

theorem emitFuel_empty (fuel : Nat) (st : EmitterState) (E : String) (args : List Nat)
    (h : st.listeners = []) : emitFuel fuel st E args = (st, [], false) := by
  cases fuel <;> simp [emitFuel, h, emitLoopW]

theorem runBehW_empty (m : Nat) (emitO : Option EmitFn)
    (hO : ∀ em, emitO = some em → ∀ E a, em ⟨[], m⟩ E a = (⟨[], m⟩, [], false)) (b : Beh) :
    (runBehW emitO ⟨[], m⟩ b).1 = (⟨[], m⟩ : EmitterState) ∧
      (runBehW emitO ⟨[], m⟩ b).2.1 = [] := by
  induction b with
  | ret => simp [runBehW]
  | throwB => simp [runBehW]
  | emitThen e k ih =>
    cases emitO with
    | none => simp [runBehW]
    | some em =>
      have he := hO em rfl e []
      simp only [runBehW, he]
      exact ⟨ih.1, by simp [ih.2]⟩

/-- Running one `emit` on a state holding exactly the `once`-wrapper of
`Fn.base n b` under a matching pattern: the wrapper and then the
original are invoked, the registry is left empty, and `emit` returns
the negation of whether the original's body raised. -/
theorem emitFuel_once_run (fuel : Nat) (P E : String) (n : Nat) (b : Beh)
    (args : List Nat) (h : _matches P E = true) :
    ∃ t : Bool,
      emitFuel fuel ⟨[(P, [Fn.wrap P (Fn.base n b)])], 10⟩ E args =
        (⟨[], 10⟩,
         TraceEv.invoke (Fn.wrap P (Fn.base n b)) args ::
           TraceEv.invoke (Fn.base n b) args ::
             (if t then [TraceEv.errorReport E] else []),
         !t) := by
  have key : ∀ (emitO : Option EmitFn),
      (∀ em, emitO = some em → ∀ E2 a2, em ⟨[], 10⟩ E2 a2 = (⟨[], 10⟩, [], false)) →
      ∃ t : Bool,
        emitLoopW emitO E args ⟨[(P, [Fn.wrap P (Fn.base n b)])], 10⟩ [P] =
          (⟨[], 10⟩,
           TraceEv.invoke (Fn.wrap P (Fn.base n b)) args ::
             TraceEv.invoke (Fn.base n b) args ::
               (if t then [TraceEv.errorReport E] else []),
           !t) := by
    intro emitO hO
    obtain ⟨hb1, hb2⟩ := runBehW_empty 10 emitO hO b
    refine ⟨(runBehW emitO ⟨[], 10⟩ b).2.2, ?_⟩
    have hoff : jsOff ⟨[(P, [Fn.wrap P (Fn.base n b)])], 10⟩ P
        (some (Fn.wrap P (Fn.base n b))) = ⟨[], 10⟩ := by
      simp [jsOff, mapGet, spliceFirst, offPred, mapDelete]
    simp only [emitLoopW, mapGet, if_pos rfl, h, runSnapshotW, applyFnW, hoff,
      hb1, hb2, if_pos]
    cases ht : (runBehW emitO ⟨[], 10⟩ b).2.2 <;> simp
  cases fuel with
  | zero =>
    obtain ⟨t, ht⟩ := key none (fun em hem => by cases hem)
    refine ⟨t, ?_⟩
    simpa [emitFuel, mapGet] using ht
  | succ f =>
    obtain ⟨t, ht⟩ := key (some (fun st2 e2 a2 => emitFuel f st2 e2 a2))
      (fun em hem E2 a2 => by
        cases hem
        exact emitFuel_empty f ⟨[], 10⟩ E2 a2 rfl)
    refine ⟨t, ?_⟩
    simpa [emitFuel, mapGet] using ht

/-! ## Matcher lemmas -/

/-- The loop result of `_matches` combined with the final
segment-count comparison on the full splits. -/
def loopRes (pps eps : List String) (lenP lenE : Nat) : Bool :=
  match loopStep pps eps with
  | some b => b
  | none => lenP == lenE

theorem get?_tail_aux (l : List String) (n : Nat) : l.tail.get? n = l.get? (n + 1) := by
  cases l <;> simp

set_option maxRecDepth 4000 in
theorem specWalk_eq_loop (pps eps : List String) :
    ∀ i, specWalk pps eps i = loopRes (pps.drop i) (eps.drop i) pps.length eps.length := by
  suffices H : ∀ n i, pps.length - i ≤ n →
      specWalk pps eps i = loopRes (pps.drop i) (eps.drop i) pps.length eps.length by
    intro i; exact H pps.length i (by omega)
  intro n
  induction n with
  | zero =>
    intro i hle
    have hge : pps.length ≤ i := by omega
    rw [specWalk, dif_neg (by omega), List.drop_eq_nil_of_le hge]
    simp [loopRes, loopStep]
  | succ n ih =>
    intro i hle
    by_cases hp : i < pps.length
    · have hdropP : pps.drop i = pps[i] :: pps.drop (i + 1) := List.drop_eq_getElem_cons hp
      rw [specWalk, dif_pos hp]
      simp only [List.get_eq_getElem]
      by_cases hpp : pps[i] = "**"
      · simp [loopRes, loopStep, hdropP, hpp]
      · by_cases hps : pps[i] = "*"
        · rw [if_neg hpp, if_pos hps, ih (i + 1) (by omega)]
          simp [loopRes, loopStep, hdropP, hpp, hps, List.tail_drop]
        · rw [if_neg hpp, if_neg hps]
          by_cases hlt : i < eps.length
          · have hgete : eps.get? i = some eps[i] := by
              rw [List.get?_eq_get hlt, List.get_eq_getElem]
            have hdropE : eps.drop i = eps[i] :: eps.drop (i + 1) :=
              List.drop_eq_getElem_cons hlt
            by_cases he : pps[i] = eps[i]
            · rw [ih (i + 1) (by omega), hgete]
              simp only [loopRes]
              rw [hdropP, hdropE]
              simp only [loopStep]
              rw [he]
              rw [he] at hpp hps
              simp [hpp, hps]
            · rw [hgete]
              simp only [loopRes]
              rw [hdropP, hdropE]
              simp only [loopStep]
              simp [hpp, hps, he]
          · have hgete : eps.get? i = none := List.get?_eq_none.mpr (by omega)
            have hdropE : eps.drop i = [] := List.drop_eq_nil_of_le (by omega)
            rw [hgete]
            simp only [loopRes]
            rw [hdropP, hdropE]
            simp only [loopStep]
            simp [hpp, hps]
    · rw [specWalk, dif_neg hp, List.drop_eq_nil_of_le (by omega)]
      simp [loopRes, loopStep]

theorem matches_eq_specMatches (P E : String) : _matches P E = specMatches P E := by
  unfold _matches specMatches
  by_cases hsc : P = E ∨ P = "*"
  · simp [hsc]
  · simp only [hsc, if_neg, if_false]
    rw [specWalk_eq_loop (jsSplit P) (jsSplit E) 0]
    simp [loopRes]

theorem loopStep_no_dstar (pps : List String) :
    ∀ eps, (∀ s ∈ pps, s ≠ "**") → loopStep pps eps ≠ some true := by
  induction pps with
  | nil => intro eps _; simp [loopStep]
  | cons p ps ih =>
    intro eps h
    have hp : p ≠ "**" := h p (by simp)
    simp only [loopStep]
    rw [if_neg hp]
    by_cases hs : p = "*"
    · rw [if_pos hs]
      exact ih eps.tail (fun s hsm => h s (List.mem_cons_of_mem _ hsm))
    · rw [if_neg hs]
      cases eps with
      | nil => simp
      | cons e es =>
        by_cases he : p = e
        · subst he
          simpa using ih es (fun s hsm => h s (List.mem_cons_of_mem _ hsm))
        · simp [he]

theorem matches_longer_no_dstar (P E : String)
    (hnd : ∀ s ∈ jsSplit P, s ≠ "**")
    (hlen : (jsSplit E).length < (jsSplit P).length) :
    _matches P E = false := by
  have hne : ¬ P = E := by
    intro hh
    rw [hh] at hlen
    omega
  have hns : ¬ P = "*" := by
    intro hh
    have h1 : jsSplit P = ["*"] := by rw [hh]; rfl
    rw [h1] at hlen
    simp only [List.length_singleton] at hlen
    have h0 : (jsSplit E).length = 0 := by omega
    exact jsSplit_ne_nil E (List.length_eq_zero.mp h0)
  unfold _matches
  rw [if_neg (by tauto)]
  cases hls : loopStep (jsSplit P) (jsSplit E) with
  | none =>
    show ((jsSplit P).length == (jsSplit E).length) = false
    rw [beq_eq_false_iff_ne]
    omega
  | some b =>
    cases b with
    | false => rfl
    | true => exact absurd hls (loopStep_no_dstar (jsSplit P) (jsSplit E) hnd)

theorem loopStep_dstar :
    ∀ (k : Nat) (pps eps : List String), pps.get? k = some "**" →
    (∀ j, j < k → pps.get? j = some "*" ∨ pps.get? j = eps.get? j) →
    loopStep pps eps = some true := by
  intro k
  induction k with
  | zero =>
    intro pps eps hk _
    cases pps with
    | nil => simp at hk
    | cons p ps =>
      simp only [List.get?] at hk
      have : p = "**" := by simpa using hk
      simp [loopStep, this]
  | succ k ih =>
    intro pps eps hk hcond
    cases pps with
    | nil => simp at hk
    | cons p ps =>
      by_cases hpp : p = "**"
      · simp [loopStep, hpp]
      · have h0 := hcond 0 (by omega)
        simp only [List.get?] at h0
        by_cases hps : p = "*"
        · simp only [loopStep]
          rw [if_neg hpp, if_pos hps]
          refine ih ps eps.tail (by simpa using hk) ?_
          intro j hj
          rw [get?_tail_aux]
          simpa using hcond (j + 1) (by omega)
        · have he : some p = eps.get? 0 := by
            rcases h0 with h1 | h2
            · exact absurd (by simpa using h1) hps
            · exact h2
          cases eps with
          | nil => simp at he
          | cons e es =>
            simp only [List.get?] at he
            have hpe : p = e := by simpa using he
            simp only [loopStep]
            rw [if_neg hpp, if_neg hps, if_pos hpe]
            refine ih ps es (by simpa using hk) ?_
            intro j hj
            have := hcond (j + 1) (by omega)
            simpa using this

/-! ## Concrete states used by counterexamples and witnesses -/

/-- A registry holding one throwing listener under the literal pattern `"x"`. -/
def soleThrowSt : EmitterState := ⟨[("x", [Fn.base 0 Beh.throwB])], 10⟩

/-- A registry with nine listeners already registered under `"x"`. -/
def nineSt : EmitterState := ⟨[("x", List.replicate 9 (Fn.base 0 Beh.ret))], 10⟩

/-- A registry with one listener under `"a"`. -/
def oneASt : EmitterState := ⟨[("a", [Fn.base 0 Beh.ret])], 10⟩

/-- A registry with the same callback registered twice under `"x"`. -/
def doubleSt : EmitterState := ⟨[("x", [Fn.base 0 Beh.ret, Fn.base 0 Beh.ret])], 10⟩

/-- A registry with a throwing and a normal listener under `"x"` and a
`once`-wrapper under `"*"`. -/
def mixedSt : EmitterState :=
  ⟨[("x", [Fn.base 0 Beh.throwB, Fn.base 1 Beh.ret]),
    ("*", [Fn.wrap "*" (Fn.base 2 Beh.ret)])], 10⟩

/-! ## Claim theorems -/

/-- C3: for every pattern `P` and event `E`, `_matches P E` agrees with
the segment-walk algorithm of spec section 4.1; after exhausting the
pattern segments without a `"**"` the result is true only with equal
segment counts, so a pattern with more segments than the event and no
`"**"` never matches, and `"a.*"` matches neither `"a"` nor `"a.b.c"`
(while matching `"a.b"`; `"*"` and `"a.**"` behave as the table says). -/
theorem C3_matcher_spec :
    (∀ P E, _matches P E = specMatches P E) ∧
    (∀ P E, (∀ s ∈ jsSplit P, s ≠ "**") →
      (jsSplit E).length < (jsSplit P).length → _matches P E = false) ∧
    _matches "a.*" "a" = false ∧ _matches "a.*" "a.b.c" = false ∧
    _matches "a.*" "a.b" = true ∧ _matches "*" "x.y" = true ∧
    _matches "a.**" "a.b.c" = true :=
  ⟨matches_eq_specMatches, matches_longer_no_dstar,
   by decide, by decide, by decide, by decide, by decide⟩

/-- Witness for C3: the universally quantified parts applied at
`P = "a.b.c"`, `E = "a"`. -/
theorem C3_matcher_spec_witness :
    _matches "a.b.c" "a" = false :=
  C3_matcher_spec.2.1 "a.b.c" "a" (by decide) (by decide)

/-- C10: a `"**"` segment is accepted even when the event is already
exhausted: if every pattern segment before the `"**"` is `"*"` or
equals the event segment at the same index, `_matches` is true, and in
particular `_matches "a.**" "a"` and `_matches "a.*.**" "a"` are true. -/
theorem C10_dstar_accepts :
    (∀ P E (k : Nat), (jsSplit P).get? k = some "**" →
      (∀ j, j < k → (jsSplit P).get? j = some "*" ∨
        (jsSplit P).get? j = (jsSplit E).get? j) →
      _matches P E = true) ∧
    _matches "a.**" "a" = true ∧ _matches "a.*.**" "a" = true := by
  refine ⟨?_, by decide, by decide⟩
  intro P E k hk hcond
  have hloop := loopStep_dstar k (jsSplit P) (jsSplit E) hk hcond
  unfold _matches
  by_cases hsc : P = E ∨ P = "*"
  · simp [hsc]
  · simp [hsc, hloop]

/-- Witness for C10: the quantified part applied at `P = "b.*.**"`,
`E = "b"`, `k = 2`. -/
theorem C10_dstar_witness : _matches "b.*.**" "b" = true :=
  C10_dstar_accepts.1 "b.*.**" "b" 2 (by decide) (by decide)

/-- C6 counterexample: with nine listeners under `"x"`, the
registration that makes the resulting list length exactly reach the
soft capacity 10 produces no warning — the code checks the length
before the push, so the claimed "resulting length reaches or exceeds"
trigger is wrong at this input. -/
theorem C6_counterexample :
    (jsOn nineSt "x" (Fn.base 9 Beh.ret)).2 = [] ∧
    ((mapGet (jsOn nineSt "x" (Fn.base 9 Beh.ret)).1.listeners "x").getD []).length = 10 := by
  constructor <;> rfl

/-- C6 amended: `on` always appends the new entry (registration is
never blocked), and a capacity warning is emitted exactly when the list
length **before** the append reaches or exceeds `maxListeners`
(equivalently, when the resulting length is at least `maxListeners + 1`);
so the first warning accompanies the registration bringing the list to
11 entries, not 10. -/
theorem C6_capacity_amended (st : EmitterState) (P : String) (f : Fn) :
    mapGet ((jsOn st P f).1).listeners P
      = some (((mapGet st.listeners P).getD []) ++ [f]) ∧
    ((jsOn st P f).2 ≠ [] ↔ ((mapGet st.listeners P).getD []).length ≥ st.maxListeners) := by
  refine ⟨jsOn_get_self st P f, ?_⟩
  rw [jsOn_warns st P f]
  by_cases h : ((mapGet st.listeners P).getD []).length ≥ st.maxListeners <;> simp [h]

/-- C7 counterexample: with one listener under `"a"` and no key `""`,
`listenerCount` applied to the empty-string pattern returns 1 (the
falsy `if (event)` branch computes the total), not the claimed 0. -/
theorem C7_counterexample :
    mapGet oneASt.listeners "" = none ∧ listenerCount oneASt (some "") = 1 := by
  constructor <;> rfl

/-- C7 amended: for every **nonempty** pattern `P`, `count(P)` is the
length of `P`'s list (0 when `P` is not a key); `count()` with no
argument and `count("")` both return the sum of the list lengths over
all patterns, which is 0 with no registrations. -/
theorem C7_count_amended :
    (∀ st P, P ≠ "" → listenerCount st (some P) = ((mapGet st.listeners P).getD []).length) ∧
    (∀ st P, P ≠ "" → mapGet st.listeners P = none → listenerCount st (some P) = 0) ∧
    (∀ st : EmitterState, listenerCount st none
      = (st.listeners.map (fun kv => kv.2.length)).sum) ∧
    (∀ st : EmitterState, listenerCount st (some "") = listenerCount st none) ∧
    listenerCount newEmitter none = 0 := by
  refine ⟨?_, ?_, ?_, ?_, rfl⟩
  · intro st P hP
    simp [listenerCount, truthyStr, hP]
  · intro st P hP hnone
    simp [listenerCount, truthyStr, hP, hnone]
  · intro st
    simp [listenerCount, truthyStr, foldl_len]
  · intro st
    simp [listenerCount, truthyStr]

/-- Witness for C7's amended claim, applied at the one-listener state
and pattern `"a"`. -/
theorem C7_count_witness : listenerCount oneASt (some "a") = 1 :=
  (C7_count_amended.1 oneASt "a" (by decide)).trans (by decide)

/-- C8 counterexample: with the same callback registered twice under
`"x"`, invoking the unsubscribe token (`off("x", cb)`) a second time is
not a no-op — it removes the second copy as well. -/
theorem C8_counterexample :
    jsOff (jsOff doubleSt "x" (some (Fn.base 0 Beh.ret))) "x" (some (Fn.base 0 Beh.ret))
      ≠ jsOff doubleSt "x" (some (Fn.base 0 Beh.ret)) := by
  decide

/-- C8 amended: over registries with distinct keys, the unsubscribe
token is idempotent provided at most one stored entry matches the
callback (by identity or by `_original` back-reference) under its
pattern; when the same callback is registered more than once a second
invocation removes the next matching occurrence instead. -/
theorem C8_off_idempotent (st : EmitterState) (P : String) (cb : Fn)
    (hnd : (st.listeners.map Prod.fst).Nodup)
    (hcount : ((mapGet st.listeners P).getD []).countP (offPred cb) ≤ 1) :
    jsOff (jsOff st P (some cb)) P (some cb) = jsOff st P (some cb) := by
  cases hg : mapGet st.listeners P with
  | none =>
    have h1 : jsOff st P (some cb) = st := by simp [jsOff, hg]
    rw [h1, h1]
  | some l =>
    simp only [hg, Option.getD_some] at hcount
    by_cases hz : (spliceFirst (offPred cb) l).length = 0
    · have h1 : jsOff st P (some cb)
          = { st with listeners := mapDelete st.listeners P } := by
        simp [jsOff, hg, hz]
      rw [h1]
      have h2 : mapGet (mapDelete st.listeners P) P = none :=
        mapGet_delete_self _ _ hnd
      simp [jsOff, h2]
    · have h1 : jsOff st P (some cb)
          = { st with listeners := mapSet st.listeners P (spliceFirst (offPred cb) l) } := by
        simp [jsOff, hg, hz]
      rw [h1]
      have h2 : mapGet (mapSet st.listeners P (spliceFirst (offPred cb) l)) P
          = some (spliceFirst (offPred cb) l) := mapGet_set_self _ _ _
      have h3 : spliceFirst (offPred cb) (spliceFirst (offPred cb) l)
          = spliceFirst (offPred cb) l :=
        spliceFirst_of_countP_zero _ _ (countP_spliceFirst_eq_zero _ _ hcount)
      simp [jsOff, h2, h3, hz, mapSet_set]

/-- Witness for C8's amended claim at a single-registration state. -/
theorem C8_off_witness :
    jsOff (jsOff oneASt "a" (some (Fn.base 0 Beh.ret))) "a" (some (Fn.base 0 Beh.ret))
      = jsOff oneASt "a" (some (Fn.base 0 Beh.ret)) :=
  C8_off_idempotent oneASt "a" (Fn.base 0 Beh.ret) (by decide) (by decide)

/-- C1 counterexample: a sole matching listener that throws.  Its
invocation is started (it appears in the trace), yet `emit` returns
`false`, because the code sets `called = true` only after the listener
returns normally — refuting the claim that `emit` still returns true. -/
theorem C1_counterexample :
    (emitFuel 0 soleThrowSt "x" []).2.2 = false ∧
    TraceEv.invoke (Fn.base 0 Beh.throwB) [] ∈ (emitFuel 0 soleThrowSt "x" []).2.1 := by
  decide

/-- C1 amended: over well-formed registries of non-re-entrant
listeners, `emit` returns true iff some currently registered listener
of some matching pattern **completes without raising**; it returns
false when no pattern matches, all matching lists are empty, or every
started invocation raised — in particular a sole throwing listener
yields false. -/
theorem C1_emit_returns (st : EmitterState) (fuel : Nat) (E : String) (args : List Nat)
    (h : wfS st) :
    (emitFuel fuel st E args).2.2
      = st.listeners.any (fun kv => _matches kv.1 E && kv.2.any (fun f => !fnThrows f)) := by
  have inv : ∀ kv ∈ st.listeners,
      mapGet st.listeners kv.1 = some kv.2 ∧ ∀ f ∈ kv.2, wfFn kv.1 f = true :=
    fun kv hkv => ⟨mapGet_mem_of_nodup st.listeners kv h.1 hkv, h.2 kv hkv⟩
  cases fuel with
  | zero => exact (emitLoopW_wf none E args st.listeners st h.1 inv).2
  | succ f =>
    exact (emitLoopW_wf (some (fun st2 e2 a2 => emitFuel f st2 e2 a2))
      E args st.listeners st h.1 inv).2

/-- Witness for C1's amended claim at a mixed registry. -/
theorem C1_emit_returns_witness :
    (emitFuel 0 mixedSt "x" []).2.2
      = mixedSt.listeners.any (fun kv => _matches kv.1 "x" && kv.2.any (fun f => !fnThrows f)) :=
  C1_emit_returns mixedSt 0 "x" [] (by decide)

/-- C2: over well-formed registries of non-re-entrant listeners, the
trace of one `emit` is exactly, for each matching pattern in registry
order and each of its listeners in list order, the listener's
invocation events followed by a failure report (with the event name)
when it raised: every raise is caught and reported to the diagnostic
sink, every remaining listener of the same and of every other matching
pattern is still invoked, and no listener error escapes `emit` (whose
only outputs are its state, this trace, and its boolean). -/
theorem C2_emit_isolates (st : EmitterState) (fuel : Nat) (E : String) (args : List Nat)
    (h : wfS st) :
    (emitFuel fuel st E args).2.1
      = ((st.listeners.filter (fun kv => _matches kv.1 E)).map
          (fun kv => (kv.2.map (expectedOne E args)).flatten)).flatten := by
  have inv : ∀ kv ∈ st.listeners,
      mapGet st.listeners kv.1 = some kv.2 ∧ ∀ f ∈ kv.2, wfFn kv.1 f = true :=
    fun kv hkv => ⟨mapGet_mem_of_nodup st.listeners kv h.1 hkv, h.2 kv hkv⟩
  cases fuel with
  | zero => exact (emitLoopW_wf none E args st.listeners st h.1 inv).1
  | succ f =>
    exact (emitLoopW_wf (some (fun st2 e2 a2 => emitFuel f st2 e2 a2))
      E args st.listeners st h.1 inv).1

/-- Witness for C2 at a registry where a throwing listener is followed
by a normal one on the same pattern, and a second pattern also matches. -/
theorem C2_emit_isolates_witness :
    (emitFuel 0 mixedSt "x" []).2.1
      = ((mixedSt.listeners.filter (fun kv => _matches kv.1 "x")).map
          (fun kv => (kv.2.map (expectedOne "x" [])).flatten)).flatten :=
  C2_emit_isolates mixedSt 0 "x" [] (by decide)

/-- C4: after `registerOnce(P, cb)` on a fresh emitter, the first emit
of an event matching `P` invokes `cb` exactly once — for every body of
`cb`, including ones that re-entrantly emit matching events, because
the wrapper removes itself before invoking `cb` — leaving the registry
empty; a second emit of the same event invokes `cb` zero times and
returns false. -/
theorem C4_once_semantics (P E : String) (n : Nat) (b : Beh) (args : List Nat)
    (fuel fuel2 : Nat) (h : _matches P E = true) :
    ((emitFuel fuel ((jsOnce newEmitter P (Fn.base n b)).1) E args).2.1.count
        (TraceEv.invoke (Fn.base n b) args) = 1) ∧
    (emitFuel fuel ((jsOnce newEmitter P (Fn.base n b)).1) E args).1.listeners = [] ∧
    ((emitFuel fuel2 (emitFuel fuel ((jsOnce newEmitter P (Fn.base n b)).1) E args).1
        E args).2.1.count (TraceEv.invoke (Fn.base n b) args) = 0) ∧
    (emitFuel fuel2 (emitFuel fuel ((jsOnce newEmitter P (Fn.base n b)).1) E args).1
        E args).2.2 = false := by
  have hst1 : (jsOnce newEmitter P (Fn.base n b)).1
      = ⟨[(P, [Fn.wrap P (Fn.base n b)])], 10⟩ := by
    simp [jsOnce, jsOn, newEmitter, mapGet, mapSet]
  rw [hst1]
  obtain ⟨t, ht⟩ := emitFuel_once_run fuel P E n b args h
  rw [ht]
  have hempty := emitFuel_empty fuel2 ⟨[], 10⟩ E args rfl
  refine ⟨?_, rfl, ?_, ?_⟩
  · cases t <;> simp [List.count_cons]
  · simp [hempty]
  · simp [hempty]

/-- Witness for C4 with a callback that re-entrantly emits the same
event. -/
theorem C4_once_witness :
    (emitFuel 2 ((jsOnce newEmitter "x" (Fn.base 0 (Beh.emitThen "x" Beh.ret))).1)
        "x" []).2.1.count (TraceEv.invoke (Fn.base 0 (Beh.emitThen "x" Beh.ret)) []) = 1 :=
  (C4_once_semantics "x" "x" 0 (Beh.emitThen "x" Beh.ret) [] 2 2 (by decide)).1

/-- C5 counterexample: registering a non-callable listener does not
fail the call — the registry is mutated (the value is appended), so
the claimed InvalidArgument rejection without state change is wrong. -/
theorem C5_counterexample :
    (jsOn newEmitter "x" (Fn.notFn 0)).1.listeners ≠ newEmitter.listeners ∧
    (jsOn newEmitter "x" (Fn.notFn 0)).1.listeners = [("x", [Fn.notFn 0])] := by
  constructor
  · decide
  · rfl

/-- C5 amended: no argument validation exists anywhere — `on` appends
any listener value, callable or not, and returns normally, and the
`debounce` / `throttle` wrappers are constructed and work for a
non-positive interval (with interval 0 `throttle` executes every call
immediately and `debounce` schedules at the call time itself); no
InvalidArgument error is ever raised. -/
theorem C5_no_validation (st : EmitterState) (P : String) (n : Nat)
    (now : Nat) (args : List Nat) :
    mapGet ((jsOn st P (Fn.notFn n)).1).listeners P
      = some (((mapGet st.listeners P).getD []) ++ [Fn.notFn n]) ∧
    throttleCall 0 throttleInit now args = (⟨now, none⟩, some args) ∧
    debounceCall 0 debounceInit now args = ⟨some (now + 0, args)⟩ := by
  refine ⟨jsOn_get_self st P (Fn.notFn n), ?_, rfl⟩
  simp only [throttleCall, throttleInit]
  rw [if_pos (by push_cast; omega)]

/-- C9: throttle semantics.  Out of cooldown (`now - lastCall ≥ limit`)
a call executes `fn` immediately with the given arguments and starts a
new cooldown (no timer pending); the very first invocation ever
(`lastCall = 0`) is immediate whenever the clock has at least `limit`
milliseconds on it, which `Date.now()` guarantees; a call during the
cooldown never executes immediately and (re)schedules the single
trailing slot with its own arguments to fire exactly when the cooldown
ends (`lastCall + limit`); and with no pending timer nothing fires, so
a cooldown without further calls produces no trailing call. -/
theorem C9_throttle (limit : Nat) (st : ThrottleState) (now : Nat) (args : List Nat) :
    ((limit : Int) ≤ (now : Int) - (st.lastCall : Int) →
      throttleCall limit st now args = (⟨now, none⟩, some args)) ∧
    ((now : Int) - (st.lastCall : Int) < (limit : Int) →
      throttleCall limit st now args
        = (⟨st.lastCall, some (st.lastCall + limit, args)⟩, none)) ∧
    (limit ≤ now → throttleCall limit throttleInit now args = (⟨now, none⟩, some args)) ∧
    throttleFire ⟨st.lastCall, none⟩ = (⟨st.lastCall, none⟩, none) := by
  refine ⟨?_, ?_, ?_, rfl⟩
  · intro h
    simp only [throttleCall]
    rw [if_pos (by omega)]
  · intro h
    simp only [throttleCall]
    rw [if_neg (by omega)]
    have h2 : ((now : Int) + ((limit : Int) - ((now : Int) - (st.lastCall : Int)))).toNat
        = st.lastCall + limit := by
      have h3 : ((now : Int) + ((limit : Int) - ((now : Int) - (st.lastCall : Int))))
          = ((st.lastCall + limit : Nat) : Int) := by push_cast; ring
      rw [h3, Int.toNat_natCast]
    rw [h2]
  · intro h
    simp only [throttleCall, throttleInit]
    rw [if_pos (by push_cast; omega)]

/-- Witness for C9: a leading-edge call on the fresh wrapper at clock
1000 with limit 100. -/
theorem C9_throttle_witness :
    throttleCall 100 throttleInit 1000 [7] = (⟨1000, none⟩, some [7]) :=
  (C9_throttle 100 throttleInit 1000 [7]).1 (by norm_num [throttleInit])

end EmitterSpec
